import Mathlib

/-!
Verification of the PDF chord-sheet extraction pipeline of
`src/services/geminiService.ts` (token merging, line grouping, line
classification, chord/lyric pairing, alignment reconstruction, page
assembly and final text normalization), shallowly embedded with
`List Char` for JS strings and exact fractions for the floating-point
pixel coordinates.
-/

deriving instance DecidableEq for Except

namespace ChordSheet

/-!
## Exact pixel arithmetic

The source manipulates pixel coordinates as JS doubles.  We idealize the
arithmetic as exact rational arithmetic.  To keep every program run
computable by kernel reduction we use unnormalized fractions `num / (dm1+1)`
(the denominator is stored minus one, so it is positive by construction),
together with a valuation `Px.val` into `ℚ` used to state specifications.
Every division performed by the source divides by a positive integer
(`str.length || 1`, a token count, or the literal constants 2 and 5),
so `Px.divNat` covers all of them.
-/

structure Px where
  num : Int
  dm1 : Nat
deriving DecidableEq

/-- The (positive) denominator. -/
def Px.den (p : Px) : Nat := p.dm1 + 1

/-- The rational value of a fraction; specifications are stated through it. -/
def Px.val (p : Px) : ℚ := p.num / (p.den : ℚ)

def Px.ofInt (n : Int) : Px := ⟨n, 0⟩

def Px.add (a b : Px) : Px :=
  ⟨a.num * b.den + b.num * a.den, a.dm1 + b.dm1 + a.dm1 * b.dm1⟩

def Px.neg (a : Px) : Px := ⟨-a.num, a.dm1⟩

def Px.sub (a b : Px) : Px := a.add b.neg

def Px.mul (a b : Px) : Px := ⟨a.num * b.num, a.dm1 + b.dm1 + a.dm1 * b.dm1⟩

/-- Division by a positive integer (every division in the source is one). -/
def Px.divNat (a : Px) (k : Nat) : Px := ⟨a.num, (a.dm1 + 1) * k - 1⟩

def Px.lt (a b : Px) : Bool := decide (a.num * (b.den : Int) < b.num * (a.den : Int))

def Px.le (a b : Px) : Bool := decide (a.num * (b.den : Int) ≤ b.num * (a.den : Int))

/-- JS `Math.abs`. -/
def Px.abs (a : Px) : Px := ⟨|a.num|, a.dm1⟩

/-!
## JS string helpers
-/

/-- JS whitespace characters relevant to `String.trim` / `trimEnd`
(ASCII subset: space, tab, newline, carriage return, vertical tab, form feed). -/
def isWS (c : Char) : Bool :=
  c == ' ' || c == '\t' || c == '\n' || c == '\r' ||
  c == Char.ofNat 11 || c == Char.ofNat 12

/-- Drop trailing whitespace, as JS `String.prototype.trimEnd`. -/
def jsTrimEnd (s : List Char) : List Char :=
  (s.reverse.dropWhile isWS).reverse

/-- JS `String.prototype.trim`: drop leading and trailing whitespace. -/
def jsTrim (s : List Char) : List Char :=
  jsTrimEnd (s.dropWhile isWS)

/-- JS `(s.length || 1)`: 1 when the length is 0, else the length. -/
def jsOrOne (n : Nat) : Nat := if n = 0 then 1 else n

/-!
## Data model

A PDF text item keeps only the fields the pipeline reads: the string, the
width, and the translation components of the transform matrix
(`transform[4]` = x, `transform[5]` = y).
-/

structure PdfTextItem where
  str : List Char
  width : Px
  x : Px
  y : Px
deriving DecidableEq

inductive LineType where
  | CHORD
  | LYRIC
  | UNKNOWN
deriving DecidableEq

/-!
## The chord grammar

`isChordToken` tests the anchored regex
`^[A-G](##|#|b|bb)?(maj|M|m|min|-|aug|\+|dim|°|sus|add|m7b5|ø)?[0-9]*`
`(sus[0-9])?(\(?(b|#)[0-9]+\)?)?(\/[A-G](##|#|b|bb)?)?$`.
Because the regex is anchored at both ends and only a boolean is needed,
it matches iff SOME way of resolving the alternations and the star
consumes the whole string; we enumerate all remainders of each component.
-/

/-- Remainder after consuming an exact literal, if it is a prefix. -/
def eatLit (pat s : List Char) : Option (List Char) :=
  if s.take pat.length = pat then some (s.drop pat.length) else none

/-- All remainders of a mandatory alternation group `(p1|p2|...)`. -/
def eatAlts (pats : List (List Char)) (s : List Char) : List (List Char) :=
  pats.filterMap (fun p => eatLit p s)

/-- All remainders of an optional alternation group `(p1|p2|...)?`. -/
def eatOptAlts (pats : List (List Char)) (s : List Char) : List (List Char) :=
  s :: eatAlts pats s

/-- All remainders of `[0-9]*`. -/
def digitsStar : List Char → List (List Char)
  | [] => [[]]
  | c :: rest => (c :: rest) :: (if c.isDigit then digitsStar rest else [])

/-- All remainders of `[0-9]+`. -/
def digitsPlus (s : List Char) : List (List Char) :=
  match s with
  | [] => []
  | c :: rest => if c.isDigit then digitsStar rest else []

/-- All remainders of `(sus[0-9])?`. -/
def eatOptSus (s : List Char) : List (List Char) :=
  s :: (match eatLit ['s', 'u', 's'] s with
        | some (d :: rest) => if d.isDigit then [rest] else []
        | _ => [])

/-- All remainders of `(\(?(b|#)[0-9]+\)?)?`. -/
def eatOptAlteration (s : List Char) : List (List Char) :=
  s :: ((eatOptAlts [['(']] s).flatMap (fun s1 =>
          (eatAlts [['b'], ['#']] s1).flatMap (fun s2 =>
            (digitsPlus s2).flatMap (fun s3 => eatOptAlts [[')']] s3))))

/-- Root note `[A-G]`. -/
def isRootNote (c : Char) : Bool := 'A' ≤ c && c ≤ 'G'

/-- Accidental alternatives `(##|#|b|bb)`. -/
def accAlts : List (List Char) := [['#', '#'], ['#'], ['b'], ['b', 'b']]

/-- Quality alternatives `(maj|M|m|min|-|aug|\+|dim|°|sus|add|m7b5|ø)`. -/
def qualAlts : List (List Char) :=
  [['m', 'a', 'j'], ['M'], ['m'], ['m', 'i', 'n'], ['-'], ['a', 'u', 'g'], ['+'],
   ['d', 'i', 'm'], ['°'], ['s', 'u', 's'], ['a', 'd', 'd'], ['m', '7', 'b', '5'], ['ø']]

/-- All remainders of `(\/[A-G](##|#|b|bb)?)?`. -/
def eatOptBass (s : List Char) : List (List Char) :=
  s :: (match s with
        | '/' :: c :: rest => if isRootNote c then eatOptAlts accAlts rest else []
        | _ => [])

/-- Whole-string match of the chord regex. -/
def chordMatch (s : List Char) : Bool :=
  match s with
  | [] => false
  | c :: rest =>
    isRootNote c &&
    ((eatOptAlts accAlts rest).flatMap (fun s1 =>
      (eatOptAlts qualAlts s1).flatMap (fun s2 =>
        (digitsStar s2).flatMap (fun s3 =>
          (eatOptSus s3).flatMap (fun s4 =>
            (eatOptAlteration s4).flatMap (fun s5 =>
              eatOptBass s5)))))).any (· = ([] : List Char))

/-- The source's `isChordToken`: trim, reject empty or >15 chars, regex test. -/
def isChordToken (text : List Char) : Bool :=
  let trimmed := jsTrim text
  if trimmed.isEmpty || decide (trimmed.length > 15) then false
  else chordMatch trimmed

/-!
## The line classifier
-/

/-- Case-insensitive literal prefix: the remainder after consuming it. -/
def ciPrefixDrop : List Char → List Char → Option (List Char)
  | [], s => some s
  | _ :: _, [] => none
  | p :: ps, c :: cs => if p.toLower = c.toLower then ciPrefixDrop ps cs else none

/-- The seven stripped quality substrings of `replace(/min|maj|aug|dim|sus|add|flat/ig, '')`. -/
def qualityPats : List (List Char) :=
  [['m', 'i', 'n'], ['m', 'a', 'j'], ['a', 'u', 'g'], ['d', 'i', 'm'],
   ['s', 'u', 's'], ['a', 'd', 'd'], ['f', 'l', 'a', 't']]

/-- One global left-to-right pass removing every occurrence of the quality
substrings, alternatives tried in regex order at each position (fuel-indexed;
each step consumes at least one character, so fuel `s.length` is enough). -/
def stripQualitiesAux : Nat → List Char → List Char
  | 0, s => s
  | _ + 1, [] => []
  | fuel + 1, c :: cs =>
    match qualityPats.findSome? (fun p => ciPrefixDrop p (c :: cs)) with
    | some rest => stripQualitiesAux fuel rest
    | none => c :: stripQualitiesAux fuel cs

def stripQualities (s : List Char) : List Char :=
  stripQualitiesAux s.length s

/-- The test `/[h-zH-Z]/.test`: some letter impossible in the chord grammar. -/
def hasHZ (s : List Char) : Bool :=
  s.any (fun c => ('h' ≤ c && c ≤ 'z') || ('H' ≤ c && c ≤ 'Z'))

/-- The anchored match `^\[.*\]$` (no `s` flag: `.` does not match a newline). -/
def bracketTest (s : List Char) : Bool :=
  decide (2 ≤ s.length) && (s.head? == some '[') && (s.getLast? == some ']') &&
  ((s.drop 1).dropLast.all (fun c => c ≠ '\n'))

/-- The trimmed, non-empty token strings of a line (`map(trim).filter(Boolean)`). -/
def tokensOf (lineItems : List PdfTextItem) : List (List Char) :=
  (lineItems.map (fun item => jsTrim item.str)).filter (fun t => !t.isEmpty)

/-- The ratio `chordTokens.length / tokens.length` as an exact fraction
(only evaluated when there is at least one token). -/
def chordRatioOf (lineItems : List PdfTextItem) : Px :=
  Px.divNat (Px.ofInt ((tokensOf lineItems).filter isChordToken).length)
    (tokensOf lineItems).length

/-- The source's `classifyLine`, branch for branch. -/
def classifyLine (lineItems : List PdfTextItem) : LineType :=
  if lineItems.length = 0 then .UNKNOWN
  else
    let tokens := tokensOf lineItems
    if tokens.length = 0 then .UNKNOWN
    else
      let chordRatio := chordRatioOf lineItems
      if Px.lt ⟨7, 9⟩ chordRatio then .CHORD
      else if tokens.any (fun token => hasHZ (stripQualities token)) then .LYRIC
      else if Px.lt ⟨1, 4⟩ chordRatio then .CHORD
      else if bracketTest (jsTrim tokens.flatten) then .UNKNOWN
      else .LYRIC

/-!
## The token merger (`mergeAdjacentTextItems`)
-/

/-- Stable insertion for the ascending-x sort (`sort((a, b) => a.transform[4] - b.transform[4])`,
stable per the JS spec: among equal keys the earlier item stays first). -/
def insertByX (it : PdfTextItem) : List PdfTextItem → List PdfTextItem
  | [] => [it]
  | a :: rest => if a.x.le it.x then a :: insertByX it rest else it :: a :: rest

def sortByX (items : List PdfTextItem) : List PdfTextItem :=
  items.foldl (fun acc it => insertByX it acc) []

/-- The merge test `gap >= -2 && gap < MERGE_THRESHOLD` with
`MERGE_THRESHOLD = (currentItem.width / (currentItem.str.length || 1)) * 0.5`. -/
def mergeCond (cur next : PdfTextItem) : Bool :=
  let gap := next.x.sub (cur.x.add cur.width)
  (Px.ofInt (-2)).le gap &&
    gap.lt ((cur.width.divNat (jsOrOne cur.str.length)).mul ⟨1, 1⟩)

/-- The two mutations applied on a merge: concatenate the strings and set
`width = (nextItem.transform[4] + nextItem.width) - currentItem.transform[4]`. -/
def mergeTwo (cur next : PdfTextItem) : PdfTextItem :=
  { cur with str := cur.str ++ next.str, width := (next.x.add next.width).sub cur.x }

/-- The walk over the sorted items with the running accumulator. -/
def mergeWalk (cur : PdfTextItem) : List PdfTextItem → List PdfTextItem
  | [] => [cur]
  | next :: rest =>
    if mergeCond cur next then mergeWalk (mergeTwo cur next) rest
    else cur :: mergeWalk next rest

def mergeAdjacentTextItems (items : List PdfTextItem) : List PdfTextItem :=
  if items.length < 2 then items
  else
    match sortByX items with
    | [] => []
    | first :: rest => mergeWalk first rest

/-!
## Line grouping (`rawLines`), ordering, classification of a page
-/

/-- Insert one item into the bucket list: the first bucket whose representative
y is within `Y_TOLERANCE = 5` wins; otherwise a fresh bucket keyed by the
item's own y is appended (JS `Map` iterates in insertion order). -/
def addToLines (buckets : List (Px × List PdfTextItem)) (item : PdfTextItem) :
    List (Px × List PdfTextItem) :=
  match buckets with
  | [] => [(item.y, [item])]
  | (y, its) :: rest =>
    if (y.sub item.y).abs.lt (Px.ofInt 5) then (y, its ++ [item]) :: rest
    else (y, its) :: addToLines rest item

def groupLines (items : List PdfTextItem) : List (Px × List PdfTextItem) :=
  items.foldl addToLines []

/-- Stable insertion for the descending-y sort of the buckets
(`sort((a, b) => b[0] - a[0])`). -/
def insertByYDesc (p : Px × List PdfTextItem) :
    List (Px × List PdfTextItem) → List (Px × List PdfTextItem)
  | [] => [p]
  | a :: rest => if p.1.le a.1 then a :: insertByYDesc p rest else p :: a :: rest

def sortByYDesc (buckets : List (Px × List PdfTextItem)) :
    List (Px × List PdfTextItem) :=
  buckets.foldl (fun acc p => insertByYDesc p acc) []

structure ClassifiedLine where
  y : Px
  items : List PdfTextItem
  type : LineType
deriving DecidableEq

/-- Group, sort lines by descending y, sort each line's items by ascending x,
and classify. -/
def classifyPage (items : List PdfTextItem) : List ClassifiedLine :=
  (sortByYDesc (groupLines items)).map (fun p =>
    let its := sortByX p.2
    ⟨p.1, its, classifyLine its⟩)

/-!
## The alignment reconstructor

Failures of `extractTextFromPdf`:
* `unplaceable text` is the `throw new Error` raised when the cursor walks
  off the end of `indexToXMap` while locating a chord;
* `refError` is the `ReferenceError` raised by the write loop, whose body
  `const targetIdx = closestCharIndex + j` reads the identifier
  `closestCharIndex`, which is declared nowhere in the file.
-/

inductive ExtractErr where
  | unplaceable (text : List Char)
  | refError
deriving DecidableEq

/-- State of the PASS 2 loop that builds `lyricString` and `indexToXMap`;
`none` stands for the `-Infinity` initialisation of `lastItemEndX`. -/
structure LyricBuild where
  lyricString : List Char
  indexToXMap : List Px
  lastItemEndX : Option Px

/-- One lyric item: maybe emit the inter-word space (gap above
`0.4 × avgCharWidthInItem`, mapped to the midpoint x), then every character
mapped to `itemStartX + c * avgCharWidthInItem`. -/
def buildLyricStep (st : LyricBuild) (item : PdfTextItem) : LyricBuild :=
  let itemStartX := item.x
  let avgCharWidthInItem := item.width.divNat (jsOrOne item.str.length)
  let st1 :=
    match st.lastItemEndX with
    | some lastEnd =>
      if (avgCharWidthInItem.mul ⟨2, 4⟩).lt (itemStartX.sub lastEnd) then
        { st with
          lyricString := st.lyricString ++ [' ']
          indexToXMap := st.indexToXMap ++ [lastEnd.add ((itemStartX.sub lastEnd).divNat 2)] }
      else st
    | none => st
  { lyricString := st1.lyricString ++ item.str
    indexToXMap := st1.indexToXMap ++
      (List.range item.str.length).map
        (fun c => itemStartX.add ((Px.ofInt c).mul avgCharWidthInItem))
    lastItemEndX := some (itemStartX.add item.width) }

def buildLyric (lyricItems : List PdfTextItem) : LyricBuild :=
  lyricItems.foldl buildLyricStep ⟨[], [], none⟩

/-- The cursor loop
`while (indexToXMap[cursor] < chord.x) { cursor++; if (cursor == len) throw }`,
walked along `indexToXMap.drop cursor` (an out-of-range JS read yields
`undefined`, and `undefined < x` is false, so an empty remainder stops). -/
def advanceFrom (x : Px) (text : List Char) :
    List Px → Nat → Except ExtractErr Nat
  | [], cursor => .ok cursor
  | v :: rest, cursor =>
    if v.lt x then
      match rest with
      | [] => .error (.unplaceable text)
      | _ :: _ => advanceFrom x text rest (cursor + 1)
    else .ok cursor

/-- The chord-placement loop as written: after positioning the cursor, any
non-empty chord text enters the write loop, whose first statement reads the
undeclared `closestCharIndex` and therefore throws. -/
def placeChordsCode (indexToXMap : List Px) :
    List (List Char × Px) → Nat → Except ExtractErr Unit
  | [], _ => .ok ()
  | (text, x) :: rest, cursor => do
    let c ← advanceFrom x text (indexToXMap.drop cursor) cursor
    if text.isEmpty then placeChordsCode indexToXMap rest c
    else .error .refError

/-- JS assignment `chordLineChars[targetIdx] = ch`: set in range, extend at
the end (the write loop only ever writes at most one slot past the end). -/
def writeAt (buf : List Char) (idx : Nat) (ch : Char) : List Char :=
  if idx < buf.length then buf.set idx ch else buf ++ [ch]

def writeChord : List Char → Nat → List Char → List Char
  | buf, _, [] => buf
  | buf, idx, ch :: rest => writeChord (writeAt buf idx ch) (idx + 1) rest

/-- Modelled from the spec: the write loop with the latent
`closestCharIndex` defect repaired to the corrected semantics §9 prescribes
(the single monotonic cursor `lyricStringCursor` is the write start);
everything else is as in the source. -/
def placeChordsFixed (indexToXMap : List Px) :
    List (List Char × Px) → Nat → List Char → Except ExtractErr (List Char)
  | [], _, buf => .ok buf
  | (text, x) :: rest, cursor, buf => do
    let c ← advanceFrom x text (indexToXMap.drop cursor) cursor
    placeChordsFixed indexToXMap rest c (writeChord buf c text)

/-- PASS 1 + PASS 2 for one (CHORD, LYRIC) couplet, as written (the emitted
pair is the trimmed chord buffer and the lyric string; reachable only when
every chord text is empty, because of `refError`). -/
def reconstructCoupletCode (chordItems lyricItems : List PdfTextItem) :
    Except ExtractErr (List Char × List Char) := do
  let pass1Chords := chordItems.map (fun item => (item.str, item.x))
  let lb := buildLyric lyricItems
  let chordLineChars := List.replicate lb.lyricString.length ' '
  let _ ← placeChordsCode lb.indexToXMap pass1Chords 0
  .ok (jsTrimEnd chordLineChars, lb.lyricString)

/-- Modelled from the spec: the couplet reconstruction under the corrected
cursor semantics of §9; identical to `reconstructCoupletCode` except that the
write loop writes at the monotonic cursor instead of crashing. -/
def reconstructCoupletFixed (chordItems lyricItems : List PdfTextItem) :
    Except ExtractErr (List Char × List Char) := do
  let pass1Chords := chordItems.map (fun item => (item.str, item.x))
  let lb := buildLyric lyricItems
  let buf ← placeChordsFixed lb.indexToXMap pass1Chords 0
    (List.replicate lb.lyricString.length ' ')
  .ok (jsTrimEnd buf, lb.lyricString)

/-!
## Assembly of a page
-/

/-- Rendering of a non-paired line: concatenate the items, inserting one
space when `item.transform[4] - lastX > item.width / (item.str.length || 1)`
(`lastX = -Infinity` initially, modelled as `none`). -/
def renderStep (st : List Char × Option Px) (item : PdfTextItem) :
    List Char × Option Px :=
  let withSpace :=
    match st.2 with
    | some lastX =>
      if (item.width.divNat (jsOrOne item.str.length)).lt (item.x.sub lastX) then
        st.1 ++ [' ']
      else st.1
    | none => st.1
  (withSpace ++ item.str, some (item.x.add item.width))

def renderSingleLine (items : List PdfTextItem) : List Char :=
  (items.foldl renderStep ([], none)).1

/-- The pair test `currentLine.type === 'CHORD' && nextLine?.type === 'LYRIC' && Math.abs(currentLine.y - nextLine.y) < 30`. -/
def isPair (a b : ClassifiedLine) : Bool :=
  (a.type == .CHORD) && (b.type == .LYRIC) && (a.y.sub b.y).abs.lt (Px.ofInt 30)

/-- The paired branch: the two reconstructed lines, each ended by `'\n'`. -/
def renderCouplet (a b : ClassifiedLine) : Except ExtractErr (List Char) :=
  (reconstructCoupletCode a.items b.items).map
    (fun p => p.1 ++ '\n' :: (p.2 ++ ['\n']))

/-- The per-page loop over the classified lines: a matched couplet consumes
both lines (`processedIndices`), everything else is rendered singly. -/
def processLines : List ClassifiedLine → Except ExtractErr (List Char)
  | [] => .ok []
  | [a] => .ok (renderSingleLine a.items ++ ['\n'])
  | a :: b :: rest =>
    if isPair a b then
      (renderCouplet a b).bind (fun c =>
        (processLines rest).map (fun r => c ++ r))
    else
      (processLines (b :: rest)).map (fun r =>
        renderSingleLine a.items ++ '\n' :: r)

/-!
## Document assembly and the final normalization
-/

/-- The pass `replace(/ \n/g, '\n')`: one global pass; the scan resumes after each
replacement, so only a single space before each newline is removed. -/
def stripSpaceNl : List Char → List Char
  | [] => []
  | [c] => [c]
  | a :: b :: rest =>
    if a = ' ' ∧ b = '\n' then '\n' :: stripSpaceNl rest
    else a :: stripSpaceNl (b :: rest)

/-- The pass `replace(/\n{3,}/g, '\n\n')`: every maximal run of three or more
newlines becomes exactly two (`k` counts the pending run). -/
def collapseGo : Nat → List Char → List Char
  | k, [] => List.replicate (min k 2) '\n'
  | k, c :: rest =>
    if c = '\n' then collapseGo (k + 1) rest
    else List.replicate (min k 2) '\n' ++ c :: collapseGo 0 rest

def collapseNl (s : List Char) : List Char := collapseGo 0 s

/-- The final pass `.replace(/ \n/g, '\n').replace(/\n{3,}/g, '\n\n').trim()`. -/
def normalize (s : List Char) : List Char :=
  jsTrim (collapseNl (stripSpaceNl s))

/-- The contribution of one page: empty pages are skipped (`continue`),
otherwise the processed lines followed by the extra `'\n'` appended per page. -/
def pageContrib (rawItems : List PdfTextItem) : Except ExtractErr (List Char) :=
  if rawItems.isEmpty then .ok []
  else
    let allItems := mergeAdjacentTextItems rawItems
    if allItems.isEmpty then .ok []
    else (processLines (classifyPage allItems)).map (fun t => t ++ ['\n'])

/-- The source's `extractTextFromPdf` over the pages of a document: concatenate the page
texts in order and normalize; the first failure aborts the whole document. -/
def extractTextOfDoc (pages : List (List PdfTextItem)) :
    Except ExtractErr (List Char) :=
  (pages.foldlM (fun acc page => (pageContrib page).map (fun t => acc ++ t)) []).map
    normalize

/-!
## Auxiliary definitions for the specifications
-/

/-- Concatenation of the text carried by a list of items, in list order. -/
def textConcat (items : List PdfTextItem) : List Char :=
  items.foldr (fun item acc => item.str ++ acc) []

/-- Modelled from the spec: the claimed rendering rule for non-paired lines
in which the space threshold is one average character width of the LEFT
token (its width divided by its character count), for comparison with
`renderSingleLine`. -/
def renderLineLeftRule (items : List PdfTextItem) : List Char :=
  (items.foldl (fun st item =>
    let withSpace :=
      match st.2 with
      | some prev =>
        if (prev.width.divNat prev.str.length).lt (item.x.sub (prev.x.add prev.width)) then
          st.1 ++ [' ']
        else st.1
      | none => st.1
    (withSpace ++ item.str, some item)) (([] : List Char), (none : Option PdfTextItem))).1

/-- Window predicate: the two-character substring `" \n"` occurs. -/
def hasSN : List Char → Bool
  | a :: b :: rest => (a == ' ' && b == '\n') || hasSN (b :: rest)
  | _ => false

/-- Window predicate: the three-character substring `"  \n"` occurs. -/
def hasSSN : List Char → Bool
  | a :: b :: c :: rest => (a == ' ' && b == ' ' && c == '\n') || hasSSN (b :: c :: rest)
  | _ => false

/-- Window predicate: the three-character substring `"\n\n\n"` occurs. -/
def has3N : List Char → Bool
  | a :: b :: c :: rest => (a == '\n' && b == '\n' && c == '\n') || has3N (b :: c :: rest)
  | _ => false

/-!
## Concrete scenario inputs
-/

/-- The chord of the §8 alignment round trip: `"G"` at x = 0. -/
def roundTripChordItem : PdfTextItem := ⟨"G".toList, ⟨10, 0⟩, ⟨0, 0⟩, ⟨100, 0⟩⟩

/-- The lyric of the §8 alignment round trip: `"Go tell it"` starting at x = 0. -/
def roundTripLyricItem : PdfTextItem := ⟨"Go tell it".toList, ⟨100, 0⟩, ⟨0, 0⟩, ⟨80, 0⟩⟩

def roundTripPage : List PdfTextItem := [roundTripChordItem, roundTripLyricItem]

/-- The unplaceable-chord scenario: a chord at x = 200 over a lyric line
covering x ∈ [0, 50]. -/
def unplaceableChordItem : PdfTextItem := ⟨"Em".toList, ⟨10, 0⟩, ⟨200, 0⟩, ⟨100, 0⟩⟩

def unplaceableLyricItem : PdfTextItem := ⟨"hello".toList, ⟨50, 0⟩, ⟨0, 0⟩, ⟨80, 0⟩⟩

def unplaceablePage : List PdfTextItem := [unplaceableChordItem, unplaceableLyricItem]

/-- A page holding a single plain lyric line, which extracts successfully. -/
def plainPage : List PdfTextItem := [⟨"la la".toList, ⟨50, 0⟩, ⟨0, 0⟩, ⟨40, 0⟩⟩]

/-- A line whose sole token is `"[Chorus]"`. -/
def chorusLine : List PdfTextItem := [⟨"[Chorus]".toList, ⟨40, 0⟩, ⟨0, 0⟩, ⟨0, 0⟩⟩]

/-- The §8 bracketed low-ratio scenario: tokens `["Dm", "is", "great"]`. -/
def dmIsGreatLine : List PdfTextItem :=
  [⟨"Dm".toList, ⟨20, 0⟩, ⟨0, 0⟩, ⟨0, 0⟩⟩,
   ⟨"is".toList, ⟨20, 0⟩, ⟨30, 0⟩, ⟨0, 0⟩⟩,
   ⟨"great".toList, ⟨50, 0⟩, ⟨60, 0⟩, ⟨0, 0⟩⟩]

/-- A CHORD line at y = 100 for the §8 pairing boundary. -/
def pairLineY100 : ClassifiedLine :=
  ⟨⟨100, 0⟩, [⟨"G".toList, ⟨10, 0⟩, ⟨0, 0⟩, ⟨100, 0⟩⟩], .CHORD⟩

/-- A LYRIC line at y = 129 (Δ = 29, pairs). -/
def pairLineY129 : ClassifiedLine :=
  ⟨⟨129, 0⟩, [⟨"go".toList, ⟨20, 0⟩, ⟨0, 0⟩, ⟨129, 0⟩⟩], .LYRIC⟩

/-- A LYRIC line at y = 132 (Δ = 32, does not pair). -/
def pairLineY132 : ClassifiedLine :=
  ⟨⟨132, 0⟩, [⟨"go".toList, ⟨20, 0⟩, ⟨0, 0⟩, ⟨132, 0⟩⟩], .LYRIC⟩

/-- Accumulator `"F"` (width 10, x 0) for the merge-threshold witness. -/
def mergeWitCur : PdfTextItem := ⟨"F".toList, ⟨10, 0⟩, ⟨0, 0⟩, ⟨0, 0⟩⟩

/-- Fragment `"7"` at x = 11: gap 1, below the threshold 5. -/
def mergeWitNext : PdfTextItem := ⟨"7".toList, ⟨10, 0⟩, ⟨11, 0⟩, ⟨0, 0⟩⟩

/-- Fragment `"G7"` at x = 25: gap 15, above one average character width 10. -/
def mergeWitFar : PdfTextItem := ⟨"G7".toList, ⟨10, 0⟩, ⟨25, 0⟩, ⟨0, 0⟩⟩

/-- Left token `"ab"` (width 10, so left average 5), for the space rule. -/
def spaceRuleLeft : PdfTextItem := ⟨"ab".toList, ⟨10, 0⟩, ⟨0, 0⟩, ⟨0, 0⟩⟩

/-- Right token `"cdef"` at x = 12 (width 4, so right average 1): the gap 2
exceeds the right average but not the left one. -/
def spaceRuleRight : PdfTextItem := ⟨"cdef".toList, ⟨4, 0⟩, ⟨12, 0⟩, ⟨0, 0⟩⟩

/-!
## Valuation lemmas for the pixel arithmetic
-/

theorem Px.den_cast_pos (a : Px) : 0 < ((a.den : ℚ)) := by
  simp only [Px.den]; positivity

theorem Px.val_ofInt (n : Int) : (Px.ofInt n).val = (n : ℚ) := by
  simp [Px.val, Px.ofInt, Px.den]

theorem Px.val_add (a b : Px) : (a.add b).val = a.val + b.val := by
  have ha : ((a.dm1 : ℚ) + 1) ≠ 0 := by positivity
  have hb : ((b.dm1 : ℚ) + 1) ≠ 0 := by positivity
  simp only [Px.val, Px.add, Px.den]
  push_cast
  rw [div_add_div _ _ ha hb, div_eq_div_iff (by positivity) (by positivity)]
  ring

theorem Px.val_neg (a : Px) : a.neg.val = -a.val := by
  simp [Px.val, Px.neg, Px.den, neg_div]

theorem Px.val_sub (a b : Px) : (a.sub b).val = a.val - b.val := by
  simp [Px.sub, Px.val_add, Px.val_neg, sub_eq_add_neg]

theorem Px.val_mul (a b : Px) : (a.mul b).val = a.val * b.val := by
  have ha : ((a.dm1 : ℚ) + 1) ≠ 0 := by positivity
  have hb : ((b.dm1 : ℚ) + 1) ≠ 0 := by positivity
  simp only [Px.val, Px.mul, Px.den]
  push_cast
  rw [div_mul_div_comm, div_eq_div_iff (by positivity) (by positivity)]
  ring

theorem Px.val_divNat (a : Px) (k : Nat) (hk : 0 < k) :
    (a.divNat k).val = a.val / (k : ℚ) := by
  have h : (a.dm1 + 1) * k - 1 + 1 = (a.dm1 + 1) * k := by
    have : 1 ≤ (a.dm1 + 1) * k := Nat.one_le_iff_ne_zero.mpr (by positivity)
    omega
  have ha : ((a.dm1 : ℚ) + 1) ≠ 0 := by positivity
  have hkq : (k : ℚ) ≠ 0 := by positivity
  simp only [Px.val, Px.divNat, Px.den, h]
  push_cast
  rw [div_div]

theorem Px.val_abs (a : Px) : a.abs.val = |a.val| := by
  have : |((a.dm1 : ℚ) + 1)| = ((a.dm1 : ℚ) + 1) := abs_of_pos (by positivity)
  simp only [Px.val, Px.abs, Px.den, abs_div]
  push_cast
  rw [this]

theorem Px.lt_iff (a b : Px) : a.lt b = true ↔ a.val < b.val := by
  simp only [Px.lt, decide_eq_true_eq, Px.val]
  rw [div_lt_div_iff₀ a.den_cast_pos b.den_cast_pos]
  exact_mod_cast Iff.rfl

theorem Px.le_iff (a b : Px) : a.le b = true ↔ a.val ≤ b.val := by
  simp only [Px.le, decide_eq_true_eq, Px.val]
  rw [div_le_div_iff₀ a.den_cast_pos b.den_cast_pos]
  exact_mod_cast Iff.rfl

theorem Px.lt_false_iff (a b : Px) : a.lt b = false ↔ b.val ≤ a.val := by
  rw [← not_lt, ← Px.lt_iff]
  simp

theorem Px.le_false_iff (a b : Px) : a.le b = false ↔ b.val < a.val := by
  rw [← not_le, ← Px.le_iff]
  simp

theorem jsOrOne_eq_max (n : Nat) : jsOrOne n = max 1 n := by
  cases n with
  | zero => rfl
  | succ m => simp [jsOrOne, Nat.max_eq_right (Nat.succ_le_succ (Nat.zero_le m))]

theorem jsOrOne_pos (n : Nat) : 0 < jsOrOne n := by
  rw [jsOrOne_eq_max]; omega

theorem px_half_val : (Px.mk 1 1).val = 1 / 2 := by
  norm_num [Px.val, Px.den]

theorem px_7_10_val : (Px.mk 7 9).val = 7 / 10 := by
  norm_num [Px.val, Px.den]

/-!
## C1 — the chord write step
-/

/-- C1: refuted by the code: instead of writing the chord characters at the
monotonic cursor index (with a bounds-checked unplaceable-chord failure),
the write loop computes its target from the undeclared `closestCharIndex`,
so on the round-trip page — chord `"G"` at x = 0 over lyric `"Go tell it"`
at x = 0, where the cursor positioning itself succeeds — extraction throws
the modelled `ReferenceError`. -/
theorem C1_write_reads_undeclared_cursor :
    extractTextOfDoc [roundTripPage] = .error .refError := by decide

/-!
## C2 — the unplaceable-chord failure aborts the document
-/

/-- C2: when the cursor reaches the end of `indexToXMap` before finding an
entry at or beyond the chord's x (here a chord at x = 200 over a lyric
covering x ∈ [0, 50]), the document extraction fails with the error naming
the offending chord text, regardless of any successfully processed earlier
pages and of any following pages: no partial text is returned. -/
theorem C2_unplaceable_aborts_document :
    ∀ donePages followingPages : List (List PdfTextItem),
      (∀ q ∈ donePages, (pageContrib q).isOk = true) →
      extractTextOfDoc (donePages ++ unplaceablePage :: followingPages) =
        .error (.unplaceable "Em".toList) := by
  intro donePages followingPages hok
  have hpage : pageContrib unplaceablePage = .error (.unplaceable "Em".toList) := by decide
  have step : ∀ (pages rest : List (List PdfTextItem)) (acc : List Char),
      (∀ q ∈ pages, (pageContrib q).isOk = true) →
      List.foldlM (fun acc page => (pageContrib page).map (fun t => acc ++ t)) acc
          (pages ++ unplaceablePage :: rest) =
        .error (.unplaceable "Em".toList) := by
    intro pages
    induction pages with
    | nil =>
      intro rest acc _
      simp only [List.nil_append, List.foldlM_cons, hpage, Except.map]
      rfl
    | cons q pages ih =>
      intro rest acc hok
      have hq := hok q (List.mem_cons_self q pages)
      cases hq' : pageContrib q with
      | error e => rw [hq'] at hq; simp [Except.isOk, Except.toBool] at hq
      | ok t =>
        have hbind :
            List.foldlM (fun acc page => (pageContrib page).map (fun t => acc ++ t)) acc
                ((q :: pages) ++ unplaceablePage :: rest) =
              List.foldlM (fun acc page => (pageContrib page).map (fun t => acc ++ t))
                (acc ++ t) (pages ++ unplaceablePage :: rest) := by
          simp only [List.cons_append, List.foldlM_cons, hq', Except.map]
          rfl
        rw [hbind]
        exact ih rest (acc ++ t) (fun r hr => hok r (List.mem_cons_of_mem q hr))
  unfold extractTextOfDoc
  rw [step donePages followingPages [] hok]
  rfl

/-- Witness: one successfully extracted page followed by the unplaceable
scenario page still yields the unplaceable error, not partial text. -/
theorem C2_unplaceable_witness :
    extractTextOfDoc [plainPage, unplaceablePage] =
      .error (.unplaceable "Em".toList) :=
  C2_unplaceable_aborts_document [plainPage] [] (by decide)

/-!
## C3 — emitted couplet line lengths
-/

/-- C3: refuted (under the spec-corrected cursor semantics, since the code
as written never completes a couplet at all, see C1): the round-trip couplet
is processed without failure and emits a chord line of length 1 over a lyric
line of length 10 — the trailing-space trim breaks the claimed equality. -/
theorem C3_trim_breaks_equal_length :
    reconstructCoupletFixed [roundTripChordItem] [roundTripLyricItem] =
        .ok ("G".toList, "Go tell it".toList) ∧
      "G".toList.length ≠ "Go tell it".toList.length := by decide

theorem length_le_writeAt (buf : List Char) (idx : Nat) (ch : Char) :
    buf.length ≤ (writeAt buf idx ch).length := by
  unfold writeAt
  split
  · simp
  · simp

theorem length_le_writeChord (text : List Char) :
    ∀ buf idx, buf.length ≤ (writeChord buf idx text).length := by
  induction text with
  | nil => intro buf idx; simp [writeChord]
  | cons ch rest ih =>
    intro buf idx
    calc buf.length ≤ (writeAt buf idx ch).length := length_le_writeAt buf idx ch
      _ ≤ (writeChord (writeAt buf idx ch) (idx + 1) rest).length := ih _ _
      _ = (writeChord buf idx (ch :: rest)).length := rfl

theorem length_le_placeChordsFixed (m : List Px) (chords : List (List Char × Px)) :
    ∀ cursor buf0 buf,
      placeChordsFixed m chords cursor buf0 = .ok buf → buf0.length ≤ buf.length := by
  induction chords with
  | nil =>
    intro cursor buf0 buf h
    have h' : (Except.ok buf0 : Except ExtractErr (List Char)) = .ok buf := h
    cases h'
    exact Nat.le_refl _
  | cons cd rest ih =>
    intro cursor buf0 buf h
    obtain ⟨text, x⟩ := cd
    have h' : (advanceFrom x text (m.drop cursor) cursor).bind
        (fun c => placeChordsFixed m rest c (writeChord buf0 c text)) = .ok buf := h
    cases hadv : advanceFrom x text (m.drop cursor) cursor with
    | error e => rw [hadv] at h'; simp [Except.bind] at h'
    | ok c =>
      rw [hadv] at h'
      simp only [Except.bind] at h'
      exact Nat.le_trans (length_le_writeChord text buf0 c) (ih c _ buf h')

theorem length_jsTrimEnd_le (s : List Char) : (jsTrimEnd s).length ≤ s.length := by
  unfold jsTrimEnd
  rw [List.length_reverse]
  calc (s.reverse.dropWhile isWS).length ≤ s.reverse.length :=
        (List.dropWhile_sublist isWS).length_le
    _ = s.length := List.length_reverse s

/-- C3 amended: for every couplet processed without failure (under the
spec-corrected cursor semantics), the emitted chord line is the chord buffer
with trailing whitespace trimmed; the buffer starts with exactly one cell
per lyric character and in-bounds writes preserve that length (it can only
grow through a write running past its end), so the emitted chord line's
length is at most the buffer's length, not necessarily the lyric's. -/
theorem C3_amended_trimmed_buffer :
    ∀ (chordItems lyricItems : List PdfTextItem) (buf : List Char),
      placeChordsFixed (buildLyric lyricItems).indexToXMap
          (chordItems.map fun item => (item.str, item.x)) 0
          (List.replicate (buildLyric lyricItems).lyricString.length ' ') = .ok buf →
      reconstructCoupletFixed chordItems lyricItems =
          .ok (jsTrimEnd buf, (buildLyric lyricItems).lyricString) ∧
        (buildLyric lyricItems).lyricString.length ≤ buf.length ∧
        (jsTrimEnd buf).length ≤ buf.length := by
  intro ci li buf h
  refine ⟨?_, ?_, length_jsTrimEnd_le buf⟩
  · simp only [reconstructCoupletFixed, h]
    rfl
  · have := length_le_placeChordsFixed _ _ 0 _ buf h
    simpa using this

/-- Witness for the amended C3 on the round-trip couplet. -/
theorem C3_amended_witness :
    reconstructCoupletFixed [roundTripChordItem] [roundTripLyricItem] =
        .ok (jsTrimEnd ['G', ' ', ' ', ' ', ' ', ' ', ' ', ' ', ' ', ' '],
          (buildLyric [roundTripLyricItem]).lyricString) ∧
      (buildLyric [roundTripLyricItem]).lyricString.length ≤
        (['G', ' ', ' ', ' ', ' ', ' ', ' ', ' ', ' ', ' '] : List Char).length ∧
      (jsTrimEnd ['G', ' ', ' ', ' ', ' ', ' ', ' ', ' ', ' ', ' ']).length ≤
        (['G', ' ', ' ', ' ', ' ', ' ', ' ', ' ', ' ', ' '] : List Char).length :=
  C3_amended_trimmed_buffer [roundTripChordItem] [roundTripLyricItem]
    ['G', ' ', ' ', ' ', ' ', ' ', ' ', ' ', ' ', ' '] (by decide)

/-!
## C4 — the merge threshold
-/

/-- C4: in the merge walk, accumulator and next fragment merge iff
`gap ∈ [-2, (width / max(1, textLength)) · ½)`; in particular a gap above
one full average character width of a nonnegative-width accumulator never
merges; and a merge concatenates the texts and sets the width to
`(nextX + nextWidth) − currentX`, keeping x and y. -/
theorem C4_merge_threshold :
    ∀ cur next : PdfTextItem,
      (mergeCond cur next = true ↔
        (-2 ≤ next.x.val - (cur.x.val + cur.width.val) ∧
          next.x.val - (cur.x.val + cur.width.val) <
            cur.width.val / (max 1 cur.str.length : ℚ) * (1 / 2))) ∧
      (0 ≤ cur.width.val →
        cur.width.val / (max 1 cur.str.length : ℚ) <
          next.x.val - (cur.x.val + cur.width.val) →
        mergeCond cur next = false) ∧
      (mergeCond cur next = true →
        (mergeTwo cur next).str = cur.str ++ next.str ∧
          (mergeTwo cur next).width.val = next.x.val + next.width.val - cur.x.val ∧
          (mergeTwo cur next).x = cur.x ∧ (mergeTwo cur next).y = cur.y) := by
  intro cur next
  have hmax : (0 : ℚ) < (max 1 cur.str.length : ℚ) := by
    have : 0 < max 1 cur.str.length := by omega
    exact_mod_cast this
  have hdiv : (cur.width.divNat (max 1 cur.str.length)).val =
      cur.width.val / (max 1 cur.str.length : ℚ) := by
    rw [Px.val_divNat _ _ (show 0 < max 1 cur.str.length by omega)]
    push_cast
    rfl
  have hiff : mergeCond cur next = true ↔
      (-2 ≤ next.x.val - (cur.x.val + cur.width.val) ∧
        next.x.val - (cur.x.val + cur.width.val) <
          cur.width.val / (max 1 cur.str.length : ℚ) * (1 / 2)) := by
    simp only [mergeCond, Bool.and_eq_true, Px.le_iff, Px.lt_iff, Px.val_sub, Px.val_add,
      Px.val_mul, hdiv, Px.val_ofInt, px_half_val, jsOrOne_eq_max]
    norm_num
  refine ⟨hiff, ?_, ?_⟩
  · intro hw hgap
    cases h : mergeCond cur next with
    | false => rfl
    | true =>
      exfalso
      obtain ⟨_, h2⟩ := hiff.mp h
      have havg : 0 ≤ cur.width.val / (max 1 cur.str.length : ℚ) :=
        div_nonneg hw (le_of_lt hmax)
      linarith
  · intro _
    refine ⟨rfl, ?_, rfl, rfl⟩
    simp only [mergeTwo, Px.val_sub, Px.val_add]

/-- Witness: `"F"`/`"7"` with gap 1 merge; `"F"`/`"G7"` with gap 15 above
the average character width 10 do not. -/
theorem C4_merge_threshold_witness :
    mergeCond mergeWitCur mergeWitNext = true ∧
      mergeCond mergeWitCur mergeWitFar = false :=
  ⟨(C4_merge_threshold mergeWitCur mergeWitNext).1.mpr
      (by norm_num [mergeWitCur, mergeWitNext, Px.val, Px.den]),
   (C4_merge_threshold mergeWitCur mergeWitFar).2.1
      (by norm_num [mergeWitCur, Px.val, Px.den])
      (by norm_num [mergeWitCur, mergeWitFar, Px.val, Px.den])⟩

/-!
## C5 — the section-marker line
-/

/-- C5: the claim says `"[Chorus]"` classifies Unknown, but the code
classifies it LYRIC: the h–z letter test fires on `horus` before the
bracket test is ever reached (the code's own comment says section headers
are to be treated as unknown, so the ordering contradicts it). -/
theorem C5_chorus_classifies_lyric :
    classifyLine chorusLine = .LYRIC := by decide

/-!
## C6 — the letter test precedes the low-ratio fallback
-/

/-- C6: whenever the chord ratio is ≤ 0.7 and some token still contains an
h–z/H–Z letter after the quality substrings are stripped, the line is
classified Lyric — even when the ratio exceeds 0.2; in particular
`["Dm", "is", "great"]` (ratio 1/3) classifies Lyric. -/
theorem C6_letter_test_before_low_ratio :
    (∀ items : List PdfTextItem,
        (chordRatioOf items).val ≤ 7 / 10 →
        (∃ t ∈ tokensOf items, hasHZ (stripQualities t) = true) →
        classifyLine items = .LYRIC) ∧
      classifyLine dmIsGreatLine = .LYRIC := by
  constructor
  · intro items hr hex
    obtain ⟨t, ht, hHZ⟩ := hex
    have hne : tokensOf items ≠ [] := fun h => by simp [h] at ht
    have hlen : ¬(tokensOf items).length = 0 := by
      simpa [List.length_eq_zero] using hne
    have hitems : ¬items.length = 0 := by
      intro h
      rw [List.length_eq_zero] at h
      subst h
      exact hne rfl
    have h7 : Px.lt ⟨7, 9⟩ (chordRatioOf items) = false := by
      rw [Px.lt_false_iff, px_7_10_val]
      exact hr
    have hany : (tokensOf items).any (fun token => hasHZ (stripQualities token)) = true :=
      List.any_eq_true.mpr ⟨t, ht, hHZ⟩
    simp [classifyLine, hitems, hlen, h7, hany]
  · decide

/-- Witness: the general part of C6 applied to `["Dm", "is", "great"]`. -/
theorem C6_letter_test_witness : classifyLine dmIsGreatLine = .LYRIC :=
  C6_letter_test_before_low_ratio.1 dmIsGreatLine
    (by rw [show chordRatioOf dmIsGreatLine = ⟨1, 2⟩ from by decide,
          show (Px.mk 1 2).val = 1 / 3 from by norm_num [Px.val, Px.den]]
        norm_num)
    (by decide)

/-!
## C7 — the pairing rule
-/

/-- C7: adjacent lines pair iff the first is CHORD, the second LYRIC, and
their y distance is strictly below 30 (29 pairs, 32 does not); a matched
pair consumes both lines and the walk resumes after them, while an
unmatched first line is emitted singly and the walk resumes at the second. -/
theorem C7_pairing_rule :
    (∀ a b : ClassifiedLine,
        isPair a b = true ↔
          a.type = .CHORD ∧ b.type = .LYRIC ∧ |a.y.val - b.y.val| < 30) ∧
      (∀ (a b : ClassifiedLine) (rest : List ClassifiedLine), isPair a b = true →
        processLines (a :: b :: rest) =
          (renderCouplet a b).bind (fun c => (processLines rest).map (fun r => c ++ r))) ∧
      (∀ (a b : ClassifiedLine) (rest : List ClassifiedLine), isPair a b = false →
        processLines (a :: b :: rest) =
          (processLines (b :: rest)).map (fun r => renderSingleLine a.items ++ '\n' :: r)) ∧
      isPair pairLineY100 pairLineY129 = true ∧
      isPair pairLineY100 pairLineY132 = false := by
  refine ⟨?_, ?_, ?_, by decide, by decide⟩
  · intro a b
    simp only [isPair, Bool.and_eq_true, beq_iff_eq, Px.lt_iff, Px.val_abs, Px.val_sub,
      Px.val_ofInt, and_assoc]
    norm_num
  · intro a b rest h
    simp [processLines, h]
  · intro a b rest h
    simp [processLines, h]

/-- Witness: the pair equation of C7 on the Δ = 29 boundary pair. -/
theorem C7_pairing_witness :
    processLines [pairLineY100, pairLineY129] =
      (renderCouplet pairLineY100 pairLineY129).bind
        (fun c => (processLines []).map (fun r => c ++ r)) :=
  C7_pairing_rule.2.1 pairLineY100 pairLineY129 [] (by decide)

/-!
## C9 — spaces in non-paired lines
-/

/-- C9: refuted as stated: the space threshold is the RIGHT token's average
character width, not the left's; with left `"ab"` (average 5) and right
`"cdef"` (average 1) at gap 2 the code inserts a space while the claimed
left-token rule does not. -/
theorem C9_left_rule_cex :
    renderSingleLine [spaceRuleLeft, spaceRuleRight] ≠
      renderLineLeftRule [spaceRuleLeft, spaceRuleRight] := by decide

/-- C9 amended: a single space separates two adjacent tokens exactly when
the gap from the left token's end-x to the right token's start-x exceeds
one average character width of the right token (its width divided by its
character count, 1 substituted for empty text). -/
theorem C9_space_iff_right_average :
    ∀ (l : List PdfTextItem) (a b : PdfTextItem),
      renderSingleLine (l ++ [a, b]) =
        renderSingleLine (l ++ [a]) ++
          (if b.width.val / (jsOrOne b.str.length : ℚ) <
              b.x.val - (a.x.val + a.width.val) then [' '] else []) ++ b.str := by
  intro l a b
  have happ : l ++ [a, b] = (l ++ [a]) ++ [b] := by simp
  unfold renderSingleLine
  rw [happ, List.foldl_append]
  have hsnd : (List.foldl renderStep (([], none) : List Char × Option Px) (l ++ [a])).2 =
      some (a.x.add a.width) := by
    rw [List.foldl_append]
    simp [renderStep]
  rw [List.foldl_cons, List.foldl_nil]
  simp only [renderStep, hsnd]
  have hcond : ((b.width.divNat (jsOrOne b.str.length)).lt (b.x.sub (a.x.add a.width)) = true) ↔
      b.width.val / (jsOrOne b.str.length : ℚ) < b.x.val - (a.x.val + a.width.val) := by
    rw [Px.lt_iff, Px.val_divNat _ _ (jsOrOne_pos _), Px.val_sub, Px.val_add]
  by_cases hq : b.width.val / (jsOrOne b.str.length : ℚ) < b.x.val - (a.x.val + a.width.val)
  · rw [if_pos (hcond.mpr hq), if_pos hq, List.append_assoc]
  · have hb : ¬((b.width.divNat (jsOrOne b.str.length)).lt (b.x.sub (a.x.add a.width)) = true) :=
      fun hb => hq (hcond.mp hb)
    rw [if_neg hb, if_neg hq]
    simp

/-!
## C10 — the merger loses no text
-/

theorem textConcat_cons (a : PdfTextItem) (l : List PdfTextItem) :
    textConcat (a :: l) = a.str ++ textConcat l := rfl

theorem textConcat_mergeWalk (rest : List PdfTextItem) :
    ∀ cur, textConcat (mergeWalk cur rest) = cur.str ++ textConcat rest := by
  induction rest with
  | nil => intro cur; simp [mergeWalk, textConcat]
  | cons next rest ih =>
    intro cur
    cases h : mergeCond cur next with
    | true => simp [mergeWalk, h, ih, mergeTwo, textConcat_cons, List.append_assoc]
    | false => simp [mergeWalk, h, textConcat_cons, ih]

/-- C10: the token merger loses no text: the concatenation of the output
tokens' strings, in output order, equals the concatenation of the input
fragments' strings in ascending-x order (so every input character appears
exactly once, in position). -/
theorem C10_merger_preserves_text (items : List PdfTextItem) :
    textConcat (mergeAdjacentTextItems items) = textConcat (sortByX items) := by
  unfold mergeAdjacentTextItems
  by_cases hlen : items.length < 2
  · rw [if_pos hlen]
    rcases items with _ | ⟨a, _ | ⟨b, t⟩⟩
    · rfl
    · rfl
    · exact absurd hlen (by simp)
  · rw [if_neg hlen]
    rcases hsort : sortByX items with _ | ⟨first, rest⟩
    · rfl
    · rw [textConcat_mergeWalk, textConcat_cons]

/-!
## C8 — idempotence of the final normalization

Helper lemmas about the three substring-window predicates.
-/

theorem hasSN_tail {a : Char} {l : List Char} (h : hasSN (a :: l) = false) :
    hasSN l = false := by
  cases l with
  | nil => rfl
  | cons b rest =>
    have h' : ((a == ' ' && b == '\n') || hasSN (b :: rest)) = false := h
    simp only [Bool.or_eq_false_iff] at h'
    exact h'.2

theorem hasSSN_tail {a : Char} {l : List Char} (h : hasSSN (a :: l) = false) :
    hasSSN l = false := by
  cases l with
  | nil => rfl
  | cons b rest =>
    cases rest with
    | nil => rfl
    | cons c rr =>
      have h' : ((a == ' ' && b == ' ' && c == '\n') || hasSSN (b :: c :: rr)) = false := h
      simp only [Bool.or_eq_false_iff] at h'
      exact h'.2

theorem has3N_tail {a : Char} {l : List Char} (h : has3N (a :: l) = false) :
    has3N l = false := by
  cases l with
  | nil => rfl
  | cons b rest =>
    cases rest with
    | nil => rfl
    | cons c rr =>
      have h' : ((a == '\n' && b == '\n' && c == '\n') || has3N (b :: c :: rr)) = false := h
      simp only [Bool.or_eq_false_iff] at h'
      exact h'.2

theorem hasSN_cons {a : Char} {l : List Char} (hl : hasSN l = false)
    (h : a = ' ' → l.head? ≠ some '\n') : hasSN (a :: l) = false := by
  cases l with
  | nil => rfl
  | cons b rest =>
    show ((a == ' ' && b == '\n') || hasSN (b :: rest)) = false
    rw [hl, Bool.or_false]
    by_cases ha : a = ' '
    · have hb : b ≠ '\n' := by simpa using h ha
      simp [hb]
    · simp [ha]

theorem has3N_cons {a : Char} {l : List Char} (hl : has3N l = false) (ha : a ≠ '\n') :
    has3N (a :: l) = false := by
  cases l with
  | nil => rfl
  | cons b rest =>
    cases rest with
    | nil => rfl
    | cons c rr =>
      show ((a == '\n' && b == '\n' && c == '\n') || has3N (b :: c :: rr)) = false
      rw [hl, Bool.or_false]
      simp [ha]

theorem has3N_nl_cons {c : Char} {m : List Char} (hc : c ≠ '\n')
    (hm : has3N (c :: m) = false) : has3N ('\n' :: c :: m) = false := by
  cases m with
  | nil => rfl
  | cons m0 rr =>
    show (('\n' == '\n' && c == '\n' && m0 == '\n') || has3N (c :: m0 :: rr)) = false
    rw [hm, Bool.or_false]
    simp [hc]

theorem has3N_nl_nl_cons {c : Char} {m : List Char} (hc : c ≠ '\n')
    (hm : has3N (c :: m) = false) : has3N ('\n' :: '\n' :: c :: m) = false := by
  show (('\n' == '\n' && '\n' == '\n' && c == '\n') || has3N ('\n' :: c :: m)) = false
  rw [has3N_nl_cons hc hm, Bool.or_false]
  simp [hc]

theorem hasSN_cons_mono (c : Char) {m : List Char} (h : hasSN m = true) :
    hasSN (c :: m) = true := by
  cases m with
  | nil => exact absurd h (by simp [hasSN])
  | cons b rest =>
    show ((c == ' ' && b == '\n') || hasSN (b :: rest)) = true
    rw [h, Bool.or_true]

theorem has3N_cons_mono (c : Char) {m : List Char} (h : has3N m = true) :
    has3N (c :: m) = true := by
  cases m with
  | nil => exact absurd h (by simp [has3N])
  | cons b rest =>
    cases rest with
    | nil => exact absurd h (by simp [has3N])
    | cons d rr =>
      show ((c == '\n' && b == '\n' && d == '\n') || has3N (b :: d :: rr)) = true
      rw [h, Bool.or_true]

theorem hasSN_append_right (x : List Char) {y : List Char} (h : hasSN y = true) :
    hasSN (x ++ y) = true := by
  induction x with
  | nil => simpa
  | cons a x ih =>
    simp only [List.cons_append]
    exact hasSN_cons_mono a ih

theorem has3N_append_right (x : List Char) {y : List Char} (h : has3N y = true) :
    has3N (x ++ y) = true := by
  induction x with
  | nil => simpa
  | cons a x ih =>
    simp only [List.cons_append]
    exact has3N_cons_mono a ih

theorem hasSN_append_left {x : List Char} (y : List Char) (h : hasSN x = true) :
    hasSN (x ++ y) = true := by
  induction x with
  | nil => exact absurd h (by simp [hasSN])
  | cons a x ih =>
    cases x with
    | nil => exact absurd h (by simp [hasSN])
    | cons b rest =>
      have h' : ((a == ' ' && b == '\n') || hasSN (b :: rest)) = true := h
      rcases Bool.or_eq_true_iff.mp h' with hw | ht
      · show ((a == ' ' && b == '\n') || hasSN (b :: (rest ++ y))) = true
        rw [hw, Bool.true_or]
      · have := ih ht
        simp only [List.cons_append] at this ⊢
        exact hasSN_cons_mono a this

theorem has3N_append_left {x : List Char} (y : List Char) (h : has3N x = true) :
    has3N (x ++ y) = true := by
  induction x with
  | nil => exact absurd h (by simp [has3N])
  | cons a x ih =>
    cases x with
    | nil => exact absurd h (by simp [has3N])
    | cons b rest =>
      cases rest with
      | nil => exact absurd h (by simp [has3N])
      | cons c rr =>
        have h' : ((a == '\n' && b == '\n' && c == '\n') || has3N (b :: c :: rr)) = true := h
        rcases Bool.or_eq_true_iff.mp h' with hw | ht
        · show ((a == '\n' && b == '\n' && c == '\n') || has3N (b :: c :: (rr ++ y))) = true
          rw [hw, Bool.true_or]
        · have := ih ht
          simp only [List.cons_append] at this ⊢
          exact has3N_cons_mono a this

theorem jsTrimEnd_decomp (v : List Char) :
    jsTrimEnd v ++ (v.reverse.takeWhile isWS).reverse = v := by
  unfold jsTrimEnd
  rw [← List.reverse_append, List.takeWhile_append_dropWhile, List.reverse_reverse]

theorem jsTrim_decomp (u : List Char) :
    u = u.takeWhile isWS ++
      (jsTrim u ++ ((u.dropWhile isWS).reverse.takeWhile isWS).reverse) := by
  conv_lhs => rw [← List.takeWhile_append_dropWhile isWS u]
  show _ ++ _ = _ ++ (jsTrim u ++ _)
  unfold jsTrim
  rw [jsTrimEnd_decomp (u.dropWhile isWS)]

theorem hasSN_jsTrim {u : List Char} (h : hasSN u = false) :
    hasSN (jsTrim u) = false := by
  cases hv : hasSN (jsTrim u) with
  | false => rfl
  | true =>
    have hu : hasSN u = true := by
      rw [jsTrim_decomp u]
      exact hasSN_append_right _ (hasSN_append_left _ hv)
    exact absurd h (by simp [hu])

theorem has3N_jsTrim {u : List Char} (h : has3N u = false) :
    has3N (jsTrim u) = false := by
  cases hv : has3N (jsTrim u) with
  | false => rfl
  | true =>
    have hu : has3N u = true := by
      rw [jsTrim_decomp u]
      exact has3N_append_right _ (has3N_append_left _ hv)
    exact absurd h (by simp [hu])

theorem dropWhile_dropWhile_self (p : Char → Bool) (l : List Char) :
    (l.dropWhile p).dropWhile p = l.dropWhile p := by
  induction l with
  | nil => rfl
  | cons a l ih =>
    by_cases hp : p a = true
    · rw [List.dropWhile_cons_of_pos hp]
      exact ih
    · rw [List.dropWhile_cons_of_neg hp, List.dropWhile_cons_of_neg hp]

theorem jsTrimEnd_idem (s : List Char) : jsTrimEnd (jsTrimEnd s) = jsTrimEnd s := by
  unfold jsTrimEnd
  rw [List.reverse_reverse, dropWhile_dropWhile_self]

theorem jsTrim_idem (u : List Char) : jsTrim (jsTrim u) = jsTrim u := by
  have h1 : (jsTrimEnd (u.dropWhile isWS)).dropWhile isWS =
      jsTrimEnd (u.dropWhile isWS) := by
    cases he : jsTrimEnd (u.dropWhile isWS) with
    | nil => rfl
    | cons a t =>
      have hdec := jsTrimEnd_decomp (u.dropWhile isWS)
      rw [he] at hdec
      have hhead : (u.dropWhile isWS).head? = some a := by rw [← hdec]; rfl
      have hmatch := List.head?_dropWhile_not isWS u
      rw [hhead] at hmatch
      rw [List.dropWhile_cons_of_neg (by simp [hmatch])]
  show jsTrimEnd ((jsTrimEnd (u.dropWhile isWS)).dropWhile isWS) = _
  rw [h1, jsTrimEnd_idem]
  rfl

theorem stripSpaceNl_id (l : List Char) (h : hasSN l = false) : stripSpaceNl l = l := by
  induction l using stripSpaceNl.induct with
  | case1 => rfl
  | case2 c => rfl
  | case3 a b rest hcond ih =>
    exfalso
    obtain ⟨ha, hb⟩ := hcond
    subst ha; subst hb
    simp [hasSN] at h
  | case4 a b rest hcond ih =>
    rw [show stripSpaceNl (a :: b :: rest) = a :: stripSpaceNl (b :: rest) from by
      simp [stripSpaceNl, hcond]]
    rw [ih (hasSN_tail h)]

theorem stripSpaceNl_head (b : Char) (rest : List Char) :
    (stripSpaceNl (b :: rest)).head? = some b ∨
      (b = ' ' ∧ rest.head? = some '\n' ∧
        (stripSpaceNl (b :: rest)).head? = some '\n') := by
  cases rest with
  | nil => left; rfl
  | cons r0 rr =>
    by_cases hc : b = ' ' ∧ r0 = '\n'
    · right
      obtain ⟨hb, hr⟩ := hc
      refine ⟨hb, by rw [hr]; rfl, ?_⟩
      rw [show stripSpaceNl (b :: r0 :: rr) = '\n' :: stripSpaceNl rr from by
        simp [stripSpaceNl, hb, hr]]
      rfl
    · left
      rw [show stripSpaceNl (b :: r0 :: rr) = b :: stripSpaceNl (r0 :: rr) from by
        simp [stripSpaceNl, hc]]
      rfl

theorem hasSN_stripSpaceNl (l : List Char) (h : hasSSN l = false) :
    hasSN (stripSpaceNl l) = false := by
  induction l using stripSpaceNl.induct with
  | case1 => rfl
  | case2 c => rfl
  | case3 a b rest hcond ih =>
    obtain ⟨ha, hb⟩ := hcond
    subst ha; subst hb
    rw [show stripSpaceNl (' ' :: '\n' :: rest) = '\n' :: stripSpaceNl rest from by
      simp [stripSpaceNl]]
    exact hasSN_cons (ih (hasSSN_tail (hasSSN_tail h)))
      (fun hc => absurd hc (by decide))
  | case4 a b rest hcond ih =>
    rw [show stripSpaceNl (a :: b :: rest) = a :: stripSpaceNl (b :: rest) from by
      simp [stripSpaceNl, hcond]]
    apply hasSN_cons (ih (hasSSN_tail h))
    intro ha hhead
    rcases stripSpaceNl_head b rest with h1 | ⟨hb, hrest, _⟩
    · rw [h1] at hhead
      have hb : b = '\n' := by simpa using hhead
      exact hcond ⟨ha, hb⟩
    · cases rest with
      | nil => simp at hrest
      | cons r0 rr =>
        have hr0 : r0 = '\n' := by simpa using hrest
        subst ha; subst hb; subst hr0
        simp [hasSSN] at h

theorem hasSN_replicate_nl_append (j : Nat) (x : List Char) (hx : hasSN x = false) :
    hasSN (List.replicate j '\n' ++ x) = false := by
  induction j with
  | zero => simpa
  | succ n ih =>
    rw [List.replicate_succ, List.cons_append]
    exact hasSN_cons ih (fun hc => absurd hc (by decide))

theorem hasSN_replicate_nl (n : Nat) : hasSN (List.replicate n '\n') = false := by
  simpa using hasSN_replicate_nl_append n [] rfl

theorem collapseGo_zero_head {rest : List Char}
    (h : (collapseGo 0 rest).head? = some '\n') : rest.head? = some '\n' := by
  cases rest with
  | nil => simp [collapseGo, List.replicate] at h
  | cons c r =>
    by_cases hc : c = '\n'
    · rw [hc]; rfl
    · rw [show collapseGo 0 (c :: r) =
          List.replicate (min 0 2) '\n' ++ c :: collapseGo 0 r from by
        simp [collapseGo, hc]] at h
      simp at h
      exact absurd h hc

theorem hasSN_collapseGo : ∀ (l : List Char) (k : Nat),
    hasSN l = false → hasSN (collapseGo k l) = false := by
  intro l
  induction l with
  | nil =>
    intro k _
    show hasSN (List.replicate (min k 2) '\n') = false
    exact hasSN_replicate_nl _
  | cons c rest ih =>
    intro k h
    by_cases hc : c = '\n'
    · subst hc
      rw [show collapseGo k ('\n' :: rest) = collapseGo (k + 1) rest from by
        simp [collapseGo]]
      exact ih (k + 1) (hasSN_tail h)
    · rw [show collapseGo k (c :: rest) =
          List.replicate (min k 2) '\n' ++ c :: collapseGo 0 rest from by
        simp [collapseGo, hc]]
      apply hasSN_replicate_nl_append
      apply hasSN_cons (ih 0 (hasSN_tail h))
      intro hceq hhead
      have hrest : rest.head? = some '\n' := collapseGo_zero_head hhead
      cases rest with
      | nil => simp at hrest
      | cons r0 rr =>
        have hr0 : r0 = '\n' := by simpa using hrest
        subst hceq; subst hr0
        simp [hasSN] at h

theorem has3N_replicate_le2 {n : Nat} (h : n ≤ 2) :
    has3N (List.replicate n '\n') = false := by
  interval_cases n <;> rfl

theorem has3N_collapseGo : ∀ (l : List Char) (k : Nat),
    has3N (collapseGo k l) = false := by
  intro l
  induction l with
  | nil =>
    intro k
    show has3N (List.replicate (min k 2) '\n') = false
    exact has3N_replicate_le2 (Nat.min_le_right k 2)
  | cons c rest ih =>
    intro k
    by_cases hc : c = '\n'
    · subst hc
      rw [show collapseGo k ('\n' :: rest) = collapseGo (k + 1) rest from by
        simp [collapseGo]]
      exact ih (k + 1)
    · rw [show collapseGo k (c :: rest) =
          List.replicate (min k 2) '\n' ++ c :: collapseGo 0 rest from by
        simp [collapseGo, hc]]
      have hbase : has3N (c :: collapseGo 0 rest) = false := has3N_cons (ih 0) hc
      have hmin : min k 2 = 0 ∨ min k 2 = 1 ∨ min k 2 = 2 := by omega
      rcases hmin with hm | hm | hm <;> rw [hm]
      · simpa using hbase
      · simpa [List.replicate] using has3N_nl_cons hc hbase
      · simpa [List.replicate] using has3N_nl_nl_cons hc hbase

theorem has3N_append_elim_right {x y : List Char} (h : has3N (x ++ y) = false) :
    has3N y = false := by
  cases hy : has3N y with
  | false => rfl
  | true => exact absurd h (by simp [has3N_append_right x hy])

theorem collapseGo_id : ∀ (l : List Char) (k : Nat), k ≤ 2 →
    has3N (List.replicate k '\n' ++ l) = false →
    collapseGo k l = List.replicate k '\n' ++ l := by
  intro l
  induction l with
  | nil =>
    intro k hk _
    show List.replicate (min k 2) '\n' = _
    rw [Nat.min_eq_left hk, List.append_nil]
  | cons c rest ih =>
    intro k hk h
    by_cases hc : c = '\n'
    · subst hc
      have hk1 : k + 1 ≤ 2 := by
        rcases Nat.lt_or_ge k 2 with h2 | h2
        · omega
        · exfalso
          have hkeq : k = 2 := by omega
          subst hkeq
          simp [List.replicate, has3N] at h
      have heq : List.replicate (k + 1) '\n' ++ rest =
          List.replicate k '\n' ++ '\n' :: rest := by
        rw [List.replicate_succ', List.append_assoc]
        rfl
      rw [show collapseGo k ('\n' :: rest) = collapseGo (k + 1) rest from by
        simp [collapseGo]]
      rw [ih (k + 1) hk1 (by rw [heq]; exact h), heq]
    · rw [show collapseGo k (c :: rest) =
          List.replicate (min k 2) '\n' ++ c :: collapseGo 0 rest from by
        simp [collapseGo, hc]]
      rw [Nat.min_eq_left hk]
      have hrest : has3N rest = false := has3N_tail (has3N_append_elim_right h)
      have hid := ih 0 (by omega) (by simpa using hrest)
      simp only [List.replicate, List.nil_append] at hid
      rw [hid]

theorem collapseNl_id (l : List Char) (h : has3N l = false) : collapseNl l = l := by
  have := collapseGo_id l 0 (by omega) (by simpa using h)
  simpa [collapseNl] using this

/-- C8: refuted as stated: `replace(/ \n/g, '\n')` removes only a single
space before each newline per pass, so on `"x  \nx"` one pass yields
`"x \nx"` and a second pass yields `"x\nx"`. -/
theorem C8_not_idempotent_cex :
    normalize (normalize "x  \nx".toList) ≠ normalize "x  \nx".toList := by decide

/-- C8 amended: the final normalization is idempotent on every document in
which no newline is immediately preceded by two spaces: one pass then
removes every (single) space before a newline, collapses every long newline
run to two and trims the ends, and a second pass changes nothing. -/
theorem C8_idempotent_amended :
    ∀ s : List Char, hasSSN s = false →
      normalize (normalize s) = normalize s := by
  intro s hs
  have hSNt : hasSN (stripSpaceNl s) = false := hasSN_stripSpaceNl s hs
  have hSNu : hasSN (collapseNl (stripSpaceNl s)) = false :=
    hasSN_collapseGo _ 0 hSNt
  have hSNv : hasSN (normalize s) = false := hasSN_jsTrim hSNu
  have h3u : has3N (collapseNl (stripSpaceNl s)) = false := has3N_collapseGo _ 0
  have h3v : has3N (normalize s) = false := has3N_jsTrim h3u
  show jsTrim (collapseNl (stripSpaceNl (normalize s))) = normalize s
  rw [stripSpaceNl_id _ hSNv, collapseNl_id _ h3v]
  exact jsTrim_idem _

/-- Witness: on `"ab \ncd"` (single space before the newline) a second
normalization pass is the identity. -/
theorem C8_idempotent_witness :
    normalize (normalize "ab \ncd".toList) = normalize "ab \ncd".toList :=
  C8_idempotent_amended _ (by decide)

end ChordSheet
